import Mathlib

/-!
Shallow embedding of the track-runner race simulation
(`src-tauri/src/game_server/{runner,race,simulation}.rs`) over exact
rational arithmetic, together with theorems settling the specification
claims about it.  Rust `f32` values are modelled as `ℚ`, `u32`/`usize`
as `ℕ`, and every call to `rand::random::<f32>()` is modelled as an
explicit parameter (a draw in `[0,1)`), so all operations are pure and
executable.
-/

set_option maxRecDepth 100000

namespace TrackRunner

/-- Truncation of a rational toward zero, modelling Rust float-to-int
truncation and the sign convention of Rust `%`. -/
def ratTrunc (x : ℚ) : ℤ := if 0 ≤ x then ⌊x⌋ else ⌈x⌉

/-- Rust `x % y` on floats: remainder with the sign of the dividend. -/
def fRem (x y : ℚ) : ℚ := x - y * (ratTrunc (x / y) : ℚ)

/-- Split times for a 5K race (5 x 1km cumulative splits), from
`runner.rs::SplitTimes`. -/
structure SplitTimes where
  splits : Fin 5 → ℚ
  final_time : ℚ

/-- `SplitTimes::from_finish_time`: km-time scaled cumulative checkpoints,
the first four jittered by `0.98 + rand * 0.04`, the fifth forced to the
finish time.  `rnd i` is the i-th `rand::random::<f32>()` draw. -/
def SplitTimes.from_finish_time (finish_time : ℚ) (rnd : Fin 4 → ℚ) : SplitTimes :=
  let km_time := finish_time / 5
  let variation : Fin 4 → ℚ := fun i => 0.98 + rnd i * 0.04
  { splits := ![km_time * variation 0,
                km_time * 2 * variation 1,
                km_time * 3 * variation 2,
                km_time * 4 * variation 3,
                finish_time],
    final_time := finish_time }

/-- The segment index computed in `SplitTimes::get_target_speed`:
`(distance / 1000.0).floor().min(4.0) as usize`.  `Int.toNat` models the
saturating `as usize` cast (negative values become 0). -/
def segIdx (distance : ℚ) : ℕ := (min ⌊distance / 1000⌋ 4).toNat

/-- The segment index packaged with its in-bounds proof: it always lies
in `[0, 4]`, so indexing the 5-element split array is total. -/
def segFin (distance : ℚ) : Fin 5 :=
  ⟨segIdx distance, by
    unfold segIdx
    have h := min_le_right ⌊distance / 1000⌋ 4
    omega⟩

/-- `SplitTimes::get_target_speed`: target speed at a given distance. -/
def SplitTimes.get_target_speed (s : SplitTimes) (distance : ℚ) (time_scale : ℚ) : ℚ :=
  let segment := segFin distance
  let time_at_start : ℚ :=
    if h : (segment : ℕ) = 0 then 0
    else s.splits ⟨(segment : ℕ) - 1, by have := segment.isLt; omega⟩
  let time_at_end := s.splits segment
  let segment_time := time_at_end - time_at_start
  (1000 / segment_time) / time_scale

/-- `runner.rs::RunnerFlags`. -/
structure RunnerFlags where
  finished : Bool
  squished : Bool

/-- `RunnerFlags::default()`. -/
def RunnerFlags.default : RunnerFlags := ⟨false, false⟩

/-- `runner.rs::RunnerState`. -/
structure RunnerState where
  id : ℕ
  name : String
  distance : ℚ
  lane_position : ℚ
  current_speed : ℚ
  target_speed : ℚ
  animation_phase : ℚ
  stride_multiplier : ℚ
  split_times : SplitTimes
  flags : RunnerFlags

/-- The random draws consumed when constructing one `RunnerState`:
animation phase, stride, and the four split jitters. -/
structure RunnerRand where
  anim : ℚ
  stride : ℚ
  splits : Fin 4 → ℚ

/-- `RunnerState::new`. -/
def RunnerState.new (id : ℕ) (name : String) (finish_time : ℚ) (rnd : RunnerRand) :
    RunnerState :=
  { id := id
    name := name
    distance := 0
    lane_position := 1
    current_speed := 0
    target_speed := 0
    animation_phase := rnd.anim
    stride_multiplier := 0.85 + rnd.stride * 0.3
    split_times := SplitTimes.from_finish_time finish_time rnd.splits
    flags := RunnerFlags.default }

/-- `RunnerState::reset`. -/
def RunnerState.reset (s : RunnerState) (start_distance : ℚ) (start_lane : ℚ)
    (animRnd : ℚ) : RunnerState :=
  { s with
    distance := start_distance
    lane_position := start_lane
    current_speed := 0
    target_speed := 0
    animation_phase := animRnd
    flags := RunnerFlags.default }

namespace Runner

/-- `Runner::ACCELERATION_RATE`. -/
def ACCELERATION_RATE : ℚ := 2

/-- `Runner::BASE_ANIMATION_SPEED`. -/
def BASE_ANIMATION_SPEED : ℚ := 5000 / 600

/-- `Runner::COOLDOWN_FACTOR`. -/
def COOLDOWN_FACTOR : ℚ := 0.5

/-- `Runner::DRIFT_LEFT_SPEED`. -/
def DRIFT_LEFT_SPEED : ℚ := 0.15

/-- `Runner::MIN_LANE`. -/
def MIN_LANE : ℚ := 0.75

/-- `Runner::MAX_LANE` (unused by update logic). -/
def MAX_LANE : ℚ := 2

/-- `Runner::update`: one tick of a single runner. -/
def update (state : RunnerState) (delta time_scale race_distance : ℚ) : RunnerState :=
  let finished := state.flags.finished || decide (race_distance ≤ state.distance)
  let target_speed :=
    if finished then
      state.split_times.get_target_speed (race_distance - 1) time_scale * COOLDOWN_FACTOR
    else
      state.split_times.get_target_speed state.distance time_scale
  let accel := ACCELERATION_RATE * delta
  let current_speed :=
    if state.current_speed < target_speed then
      min (state.current_speed + accel) target_speed
    else if target_speed < state.current_speed then
      max (state.current_speed - accel) target_speed
    else state.current_speed
  let distance := state.distance + current_speed * delta
  let anim_scale := current_speed / BASE_ANIMATION_SPEED
  let animation_phase :=
    fRem (state.animation_phase + delta * max anim_scale 0.3 * state.stride_multiplier) 1
  let lane_position :=
    if MIN_LANE < state.lane_position then
      max (state.lane_position - DRIFT_LEFT_SPEED * delta * state.lane_position) MIN_LANE
    else state.lane_position
  { state with
    flags := { state.flags with finished := finished }
    target_speed := target_speed
    current_speed := current_speed
    distance := distance
    animation_phase := animation_phase
    lane_position := lane_position }

end Runner

/-- `race.rs::RaceConfig`. -/
structure RaceConfig where
  distance : ℚ
  runner_count : ℕ
  time_scale : ℚ
  formation_spread : ℚ

/-- `RaceConfig::default()`. -/
def RaceConfig.default : RaceConfig := ⟨5000, 100, 10, 3⟩

/-- `race.rs::RaceStatus`. -/
inductive RaceStatus where
  | NotStarted
  | Countdown
  | Racing
  | Finished
deriving DecidableEq

/-- `race.rs::RaceResult`: one finish-order entry. -/
structure RaceResult where
  runner_id : ℕ
  runner_name : String
  finish_time : ℚ
  position : ℕ
deriving DecidableEq

/-- `race.rs::Race`. -/
structure Race where
  config : RaceConfig
  status : RaceStatus
  runners : List RunnerState
  elapsed_time : ℚ
  countdown : ℚ
  finish_order : List RaceResult

/-- `Race::new`. -/
def Race.new (config : RaceConfig) : Race :=
  { config := config
    status := RaceStatus.NotStarted
    runners := []
    elapsed_time := 0
    countdown := 3
    finish_order := [] }

/-- `Race::generate_finish_times` with explicit random draws: a decile
distribution over `i % 10` followed by an ascending stable sort
(`sort_by` with `partial_cmp`). -/
def generate_finish_times (count : ℕ) (rnd : ℕ → ℚ) : List ℚ :=
  let times := (List.range count).map fun i =>
    match i % 10 with
    | 0 => 780 + rnd i * 60
    | 1 | 2 => 900 + rnd i * 180
    | 3 | 4 | 5 | 6 => 1140 + rnd i * 360
    | _ => 1560 + rnd i * 540
  times.insertionSort (· ≤ ·)

/-- `Race::generate_runners` with explicit random draws. -/
def Race.generate_runners (race : Race) (ftRnd : ℕ → ℚ) (rRnd : ℕ → RunnerRand) : Race :=
  let finish_times := generate_finish_times race.config.runner_count ftRnd
  { race with runners := finish_times.enum.map fun p =>
      RunnerState.new p.1 ("Runner " ++ toString (p.1 + 1)) p.2 (rRnd p.1) }

/-- `Race::setup_starting_positions` with explicit random draws for the
lane jitter and the reset animation phase. -/
def Race.setup_starting_positions (race : Race) (laneRnd animRnd : ℕ → ℚ) : Race :=
  let spread := race.config.formation_spread
  { race with runners := race.runners.enum.map fun p =>
      let row : ℕ := p.1 / 10
      let col : ℕ := p.1 % 10
      let start_distance := -(row : ℚ) * spread
      let lane := 0.8 + (col : ℚ) * 0.15 + laneRnd p.1 * 0.05
      p.2.reset start_distance lane (animRnd p.1) }

/-- `Race::start_countdown`. -/
def Race.start_countdown (race : Race) : Race :=
  { race with status := RaceStatus.Countdown, countdown := 3 }

/-- The `Racing`-status runner loop of `Race::update`: update each not-yet
finished runner in roster order, appending a finish-order entry when a
runner's finished flag newly becomes true and it has no entry yet.  The
finish-order list is threaded through the iteration exactly as the Rust
loop mutates `self.finish_order` in place. -/
def raceLoop (delta time_scale race_distance elapsed : ℚ) :
    List RunnerState → List RaceResult → List RunnerState × List RaceResult
  | [], fo => ([], fo)
  | r :: rs, fo =>
    if r.flags.finished then
      let p := raceLoop delta time_scale race_distance elapsed rs fo
      (r :: p.1, p.2)
    else
      let r1 := Runner.update r delta time_scale race_distance
      let fo1 :=
        if r1.flags.finished && !(fo.any fun e => e.runner_id == r1.id) then
          fo ++ [⟨r1.id, r1.name, elapsed, fo.length + 1⟩]
        else fo
      let p := raceLoop delta time_scale race_distance elapsed rs fo1
      (r1 :: p.1, p.2)

/-- `Race::update`. -/
def Race.update (r : Race) (delta : ℚ) : Race :=
  match r.status with
  | RaceStatus.NotStarted => r
  | RaceStatus.Countdown =>
    let c := r.countdown - delta
    if c ≤ 0 then { r with status := RaceStatus.Racing, countdown := 0 }
    else { r with countdown := c }
  | RaceStatus.Racing =>
    let elapsed := r.elapsed_time + delta * r.config.time_scale
    let p := raceLoop delta r.config.time_scale r.config.distance elapsed
               r.runners r.finish_order
    let status1 :=
      if p.2.length = p.1.length then RaceStatus.Finished else RaceStatus.Racing
    { r with
      elapsed_time := elapsed
      runners := p.1
      finish_order := p.2
      status := status1 }
  | RaceStatus.Finished =>
    { r with runners := r.runners.map fun x =>
        Runner.update x delta r.config.time_scale r.config.distance }

/-- `runner.rs::RunnerSnapshot`. -/
structure RunnerSnapshot where
  id : ℕ
  distance : ℚ
  lane_position : ℚ
  speed : ℚ
  animation_phase : ℚ
  finished : Bool

/-- `RunnerSnapshot::from(&RunnerState)`. -/
def RunnerSnapshot.from (s : RunnerState) : RunnerSnapshot :=
  { id := s.id
    distance := s.distance
    lane_position := s.lane_position
    speed := s.current_speed
    animation_phase := s.animation_phase
    finished := s.flags.finished }

/-- `race.rs::RaceSnapshot`. -/
structure RaceSnapshot where
  status : RaceStatus
  elapsed_time : ℚ
  countdown : ℚ
  runners : List RunnerSnapshot
  finisher_count : ℕ

/-- `Race::get_snapshot`. -/
def Race.get_snapshot (r : Race) : RaceSnapshot :=
  { status := r.status
    elapsed_time := r.elapsed_time
    countdown := r.countdown
    runners := r.runners.map RunnerSnapshot.from
    finisher_count := r.finish_order.length }

/-- `simulation.rs::GameState`. -/
inductive GameState where
  | Idle
  | Loading
  | Ready
  | Racing
  | Results
deriving DecidableEq

/-- `simulation.rs::GameServer`.  The wall-clock `Instant` of the last
tick is modelled as a rational timestamp. -/
structure GameServer where
  state : GameState
  race : Option Race
  tick_rate : ℚ
  last_tick : ℚ
  tick_times : List ℚ
  running : Bool

/-- `GameServer::new` at wall-clock time `now`. -/
def GameServer.new (now : ℚ) : GameServer :=
  { state := GameState.Idle
    race := none
    tick_rate := 60
    last_tick := now
    tick_times := []
    running := false }

/-- `GameServer::init_race` with explicit random draws: build the race,
generate runners, set the starting grid, set the coarse state to Ready. -/
def GameServer.init_race (s : GameServer) (config : RaceConfig)
    (ftRnd : ℕ → ℚ) (rRnd : ℕ → RunnerRand) (laneRnd animRnd : ℕ → ℚ) : GameServer :=
  let race := ((Race.new config).generate_runners ftRnd rRnd).setup_starting_positions
                laneRnd animRnd
  { s with race := some race, state := GameState.Ready }

/-- `GameServer::start_race` at wall-clock time `now`. -/
def GameServer.start_race (s : GameServer) (now : ℚ) : GameServer :=
  match s.race with
  | none => s
  | some race =>
    { s with
      race := some race.start_countdown
      state := GameState.Racing
      running := true
      last_tick := now }

/-- `GameServer::tick` at wall-clock time `now`; `cost` is the measured
processing duration (ms) pushed into the diagnostics window.  Returns the
updated server and the returned snapshot. -/
def GameServer.tick (s : GameServer) (now cost : ℚ) : GameServer × Option RaceSnapshot :=
  if s.running then
    let delta := now - s.last_tick
    let s1 := { s with last_tick := now }
    let s2 :=
      match s1.race with
      | none => s1
      | some race =>
        let r1 := race.update delta
        match r1.status with
        | RaceStatus.Finished =>
          { s1 with race := some r1, state := GameState.Results, running := false }
        | _ => { s1 with race := some r1 }
    let tt := s2.tick_times ++ [cost]
    let tt1 := if 60 < tt.length then tt.drop 1 else tt
    let s3 := { s2 with tick_times := tt1 }
    (s3, s3.race.map Race.get_snapshot)
  else
    (s, s.race.map Race.get_snapshot)

/-- `GameServer::get_snapshot`. -/
def GameServer.get_snapshot (s : GameServer) : Option RaceSnapshot :=
  s.race.map Race.get_snapshot

/-- `GameServer::pause`. -/
def GameServer.pause (s : GameServer) : GameServer := { s with running := false }

/-- `GameServer::resume` at wall-clock time `now`. -/
def GameServer.resume (s : GameServer) (now : ℚ) : GameServer :=
  if s.state = GameState.Racing then { s with running := true, last_tick := now }
  else s

/-- `GameServer::reset`. -/
def GameServer.reset (s : GameServer) : GameServer :=
  { s with state := GameState.Idle, race := none, running := false, tick_times := [] }

/-- Apply a sequence of `Race::update` calls. -/
def applyUpdates (r : Race) (ds : List ℚ) : Race := ds.foldl Race.update r

/-- The race after the first `n` updates of the sequence `ds`. -/
def raceAt (r : Race) (ds : List ℚ) (n : ℕ) : Race := applyUpdates r (ds.take n)

/-- Numeric rank of a race status in the one-way state machine. -/
def statusRank : RaceStatus → ℕ
  | RaceStatus.NotStarted => 0
  | RaceStatus.Countdown => 1
  | RaceStatus.Racing => 2
  | RaceStatus.Finished => 3

/-- The invariant maintained on `finish_order`: ids are pairwise
distinct, finish times are weakly increasing in append order, the
position field is the 1-based append index, every recorded id belongs to
the roster, and all finish times are bounded by the elapsed time. -/
def FinishOrderInv (r : Race) : Prop :=
  (r.finish_order.map RaceResult.runner_id).Nodup ∧
  (r.finish_order.map RaceResult.finish_time).Pairwise (· ≤ ·) ∧
  (∀ (k : ℕ) (e : RaceResult), r.finish_order[k]? = some e → e.position = k + 1) ∧
  (∀ e ∈ r.finish_order, e.runner_id ∈ r.runners.map RunnerState.id) ∧
  (∀ e ∈ r.finish_order, e.finish_time ≤ r.elapsed_time)

/-! ### Concrete instances used for counterexamples and witnesses -/

/-- Concrete 2-runner configuration: distance 10, time scale 1. -/
def cexConfig : RaceConfig := ⟨10, 2, 1, 3⟩

/-- Finish-time draws all 0: generated times 780 and 900. -/
def cexDrawsFt : ℕ → ℚ := fun _ => 0

/-- Per-runner draws: zero animation and stride draws, split jitters all
1/2 (so every variation factor is exactly 1). -/
def cexDrawsRunner : ℕ → RunnerRand := fun _ => ⟨0, 0, fun _ => 1/2⟩

/-- The concrete race built with the repository's own constructors, with
the countdown armed. -/
def cexRace0 : Race :=
  (((Race.new cexConfig).generate_runners cexDrawsFt cexDrawsRunner).setup_starting_positions
      (fun _ => 0) (fun _ => 0)).start_countdown

/-- The concrete race driven through five updates: one countdown tick and
four racing ticks; both runners cross during the third racing tick and
are recorded in the fourth. -/
def cexRace : Race := applyUpdates cexRace0 [3, 1, 1, 1, 1]

/-- A finished runner parked inside a still-`Racing` race. -/
def cexFinishedRunner : RunnerState :=
  { id := 0, name := "a", distance := 12, lane_position := 1, current_speed := 3,
    target_speed := 100, animation_phase := 0, stride_multiplier := 1,
    split_times := ⟨![1, 2, 3, 4, 5], 5⟩, flags := ⟨true, false⟩ }

/-- An unfinished runner in the same race. -/
def cexOtherRunner : RunnerState :=
  { id := 1, name := "b", distance := 0, lane_position := 1, current_speed := 0,
    target_speed := 0, animation_phase := 0, stride_multiplier := 1,
    split_times := ⟨![1, 2, 3, 4, 5], 5⟩, flags := ⟨false, false⟩ }

/-- A `Racing`-status race in which runner 0 has already finished and been
recorded while runner 1 is still on course. -/
def cexRacing3 : Race :=
  { config := cexConfig, status := RaceStatus.Racing,
    runners := [cexFinishedRunner, cexOtherRunner], elapsed_time := 7, countdown := 0,
    finish_order := [⟨0, "a", 5, 1⟩] }

/-- An empty-roster race already in `Racing` status. -/
def tinyRacing : Race :=
  { config := ⟨10, 0, 1, 3⟩, status := RaceStatus.Racing, runners := [],
    elapsed_time := 0, countdown := 0, finish_order := [] }

/-- A server still running a race (mid-simulation). -/
def cexServer : GameServer :=
  { state := GameState.Racing, race := some cexRacing3, tick_rate := 60, last_tick := 0,
    tick_times := [], running := true }

/-- The same server immediately after `init_race` was called on it while
it was still running. -/
def cexServerInit : GameServer :=
  cexServer.init_race cexConfig cexDrawsFt cexDrawsRunner (fun _ => 0) (fun _ => 0)

/-! ### Field equations for `Runner.update` -/

theorem Runner.update_id (st : RunnerState) (d ts D : ℚ) :
    (Runner.update st d ts D).id = st.id := rfl

theorem Runner.update_finished (st : RunnerState) (d ts D : ℚ) :
    (Runner.update st d ts D).flags.finished =
      (st.flags.finished || decide (D ≤ st.distance)) := rfl

theorem Runner.update_target (st : RunnerState) (d ts D : ℚ) :
    (Runner.update st d ts D).target_speed =
      if st.flags.finished || decide (D ≤ st.distance) then
        st.split_times.get_target_speed (D - 1) ts * Runner.COOLDOWN_FACTOR
      else st.split_times.get_target_speed st.distance ts := rfl

theorem Runner.update_speed (st : RunnerState) (d ts D : ℚ) :
    (Runner.update st d ts D).current_speed =
      if st.current_speed < (Runner.update st d ts D).target_speed then
        min (st.current_speed + Runner.ACCELERATION_RATE * d)
          ((Runner.update st d ts D).target_speed)
      else if (Runner.update st d ts D).target_speed < st.current_speed then
        max (st.current_speed - Runner.ACCELERATION_RATE * d)
          ((Runner.update st d ts D).target_speed)
      else st.current_speed := rfl

theorem Runner.update_distance (st : RunnerState) (d ts D : ℚ) :
    (Runner.update st d ts D).distance =
      st.distance + (Runner.update st d ts D).current_speed * d := rfl

theorem Runner.update_split_times (st : RunnerState) (d ts D : ℚ) :
    (Runner.update st d ts D).split_times = st.split_times := rfl

/-! ### Unfolding equations and structural lemmas for `raceLoop` -/

theorem raceLoop_nil (d ts D el : ℚ) (fo : List RaceResult) :
    raceLoop d ts D el [] fo = ([], fo) := rfl

theorem raceLoop_cons (d ts D el : ℚ) (r : RunnerState) (rs : List RunnerState)
    (fo : List RaceResult) :
    raceLoop d ts D el (r :: rs) fo =
      if r.flags.finished then
        (r :: (raceLoop d ts D el rs fo).1, (raceLoop d ts D el rs fo).2)
      else
        (Runner.update r d ts D ::
           (raceLoop d ts D el rs
             (if (Runner.update r d ts D).flags.finished &&
                 !(fo.any fun e => e.runner_id == (Runner.update r d ts D).id) then
                fo ++ [⟨(Runner.update r d ts D).id, (Runner.update r d ts D).name,
                        el, fo.length + 1⟩]
              else fo)).1,
         (raceLoop d ts D el rs
             (if (Runner.update r d ts D).flags.finished &&
                 !(fo.any fun e => e.runner_id == (Runner.update r d ts D).id) then
                fo ++ [⟨(Runner.update r d ts D).id, (Runner.update r d ts D).name,
                        el, fo.length + 1⟩]
              else fo)).2) := rfl

theorem raceLoop_cons_finished (d ts D el : ℚ) (r : RunnerState) (rs : List RunnerState)
    (fo : List RaceResult) (h : r.flags.finished = true) :
    raceLoop d ts D el (r :: rs) fo =
      (r :: (raceLoop d ts D el rs fo).1, (raceLoop d ts D el rs fo).2) := by
  rw [raceLoop_cons, if_pos h]

theorem raceLoop_cons_unfinished (d ts D el : ℚ) (r : RunnerState) (rs : List RunnerState)
    (fo : List RaceResult) (h : r.flags.finished = false) :
    raceLoop d ts D el (r :: rs) fo =
      (Runner.update r d ts D ::
         (raceLoop d ts D el rs
           (if (Runner.update r d ts D).flags.finished &&
               !(fo.any fun e => e.runner_id == (Runner.update r d ts D).id) then
              fo ++ [⟨(Runner.update r d ts D).id, (Runner.update r d ts D).name,
                      el, fo.length + 1⟩]
            else fo)).1,
       (raceLoop d ts D el rs
           (if (Runner.update r d ts D).flags.finished &&
               !(fo.any fun e => e.runner_id == (Runner.update r d ts D).id) then
              fo ++ [⟨(Runner.update r d ts D).id, (Runner.update r d ts D).name,
                      el, fo.length + 1⟩]
            else fo)).2) := by
  rw [raceLoop_cons, if_neg (by simp [h])]

/-- The loop preserves the length of the runner roster. -/
theorem raceLoop_fst_length (d ts D el : ℚ) :
    ∀ (rs : List RunnerState) (fo : List RaceResult),
      (raceLoop d ts D el rs fo).1.length = rs.length := by
  intro rs
  induction rs with
  | nil => intro fo; rfl
  | cons r rs ih =>
    intro fo
    by_cases h : r.flags.finished
    · rw [raceLoop_cons_finished d ts D el r rs fo h]
      simp [ih]
    · rw [raceLoop_cons_unfinished d ts D el r rs fo (by simpa using h)]
      simp [ih]

/-- The loop preserves the roster's id sequence. -/
theorem raceLoop_fst_ids (d ts D el : ℚ) :
    ∀ (rs : List RunnerState) (fo : List RaceResult),
      (raceLoop d ts D el rs fo).1.map RunnerState.id = rs.map RunnerState.id := by
  intro rs
  induction rs with
  | nil => intro fo; rfl
  | cons r rs ih =>
    intro fo
    by_cases h : r.flags.finished
    · rw [raceLoop_cons_finished d ts D el r rs fo h]
      simp [ih]
    · rw [raceLoop_cons_unfinished d ts D el r rs fo (by simpa using h)]
      simp [ih, Runner.update_id]

/-- The loop only appends to the finish order, and every appended entry
has the tick's elapsed time as finish time and the id of some runner of
the processed roster. -/
theorem raceLoop_snd_append (d ts D el : ℚ) :
    ∀ (rs : List RunnerState) (fo : List RaceResult),
      ∃ new, (raceLoop d ts D el rs fo).2 = fo ++ new ∧
        ∀ e ∈ new, e.finish_time = el ∧ e.runner_id ∈ rs.map RunnerState.id := by
  intro rs
  induction rs with
  | nil => exact fun fo => ⟨[], by simp [raceLoop_nil], by simp⟩
  | cons r rs ih =>
    intro fo
    by_cases h : r.flags.finished
    · obtain ⟨new, hn, hp⟩ := ih fo
      refine ⟨new, ?_, fun e he => ⟨(hp e he).1, ?_⟩⟩
      · rw [raceLoop_cons_finished d ts D el r rs fo h]; exact hn
      · simp only [List.map_cons, List.mem_cons]
        exact Or.inr ((hp e he).2)
    · rw [raceLoop_cons_unfinished d ts D el r rs fo (by simpa using h)]
      by_cases hg : ((Runner.update r d ts D).flags.finished &&
          !(fo.any fun e => e.runner_id == (Runner.update r d ts D).id)) = true
      · rw [if_pos hg]
        obtain ⟨new, hn, hp⟩ :=
          ih (fo ++ [⟨(Runner.update r d ts D).id, (Runner.update r d ts D).name,
                      el, fo.length + 1⟩])
        refine ⟨⟨(Runner.update r d ts D).id, (Runner.update r d ts D).name,
                 el, fo.length + 1⟩ :: new, ?_, ?_⟩
        · simpa using hn
        · intro e he
          rcases List.mem_cons.mp he with he | he
          · subst he
            exact ⟨rfl, by simp [Runner.update_id]⟩
          · exact ⟨(hp e he).1, by
              simp only [List.map_cons, List.mem_cons]
              exact Or.inr ((hp e he).2)⟩
      · rw [if_neg hg]
        obtain ⟨new, hn, hp⟩ := ih fo
        refine ⟨new, hn, fun e he => ⟨(hp e he).1, ?_⟩⟩
        simp only [List.map_cons, List.mem_cons]
        exact Or.inr ((hp e he).2)

/-- Entries already present stay present. -/
theorem raceLoop_mem_of_mem (d ts D el : ℚ) (rs : List RunnerState) (fo : List RaceResult)
    (e : RaceResult) (he : e ∈ fo) : e ∈ (raceLoop d ts D el rs fo).2 := by
  obtain ⟨new, hn, -⟩ := raceLoop_snd_append d ts D el rs fo
  rw [hn]
  exact List.mem_append_left _ he

/-- Every entry the loop places at an index beyond the original list has
position exactly one plus that index (positions are 1-based append
indices for the new entries). -/
theorem raceLoop_snd_position (d ts D el : ℚ) :
    ∀ (rs : List RunnerState) (fo : List RaceResult) (k : ℕ) (e : RaceResult),
      fo.length ≤ k → (raceLoop d ts D el rs fo).2[k]? = some e → e.position = k + 1 := by
  intro rs
  induction rs with
  | nil =>
    intro fo k e hk he
    rw [raceLoop_nil] at he
    rw [List.getElem?_eq_none hk] at he
    cases he
  | cons r rs ih =>
    intro fo k e hk he
    by_cases hf : r.flags.finished
    · rw [raceLoop_cons_finished d ts D el r rs fo hf] at he
      exact ih fo k e hk he
    · rw [raceLoop_cons_unfinished d ts D el r rs fo (by simpa using hf)] at he
      dsimp only at he
      by_cases hg : ((Runner.update r d ts D).flags.finished &&
          !(fo.any fun x => x.runner_id == (Runner.update r d ts D).id)) = true
      · rw [if_pos hg] at he
        rcases Nat.lt_or_ge k (fo.length + 1) with hk1 | hk1
        · have hkeq : k = fo.length := by omega
          subst hkeq
          obtain ⟨new, hn, -⟩ := raceLoop_snd_append d ts D el rs
            (fo ++ [⟨(Runner.update r d ts D).id, (Runner.update r d ts D).name,
                     el, fo.length + 1⟩])
          rw [hn, List.getElem?_append] at he
          rw [if_pos (by simp)] at he
          rw [List.getElem?_append] at he
          rw [if_neg (by omega)] at he
          simp at he
          rw [← he]
        · exact ih _ k e (by simpa using hk1) he
      · rw [if_neg hg] at he
        exact ih fo k e hk he

/-- The loop never appends an entry whose runner id is already present:
ids in the finish order stay pairwise distinct. -/
theorem raceLoop_snd_nodup (d ts D el : ℚ) :
    ∀ (rs : List RunnerState) (fo : List RaceResult),
      (fo.map RaceResult.runner_id).Nodup →
      ((raceLoop d ts D el rs fo).2.map RaceResult.runner_id).Nodup := by
  intro rs
  induction rs with
  | nil => intro fo h; simpa [raceLoop_nil] using h
  | cons r rs ih =>
    intro fo h
    by_cases hf : r.flags.finished
    · rw [raceLoop_cons_finished d ts D el r rs fo hf]
      exact ih fo h
    · rw [raceLoop_cons_unfinished d ts D el r rs fo (by simpa using hf)]
      by_cases hg : ((Runner.update r d ts D).flags.finished &&
          !(fo.any fun x => x.runner_id == (Runner.update r d ts D).id)) = true
      · rw [if_pos hg]
        apply ih
        rw [List.map_append]
        refine List.Nodup.append h (by simp) ?_
        intro x hx hx2
        simp only [List.map_cons, List.map_nil, List.mem_singleton] at hx2
        subst hx2
        have hb : (fo.any fun x => x.runner_id == (Runner.update r d ts D).id) = false := by
          have h2 := hg
          simp only [Bool.and_eq_true, Bool.not_eq_true'] at h2
          exact h2.2
        rcases List.mem_map.mp hx with ⟨ent, hent, hid⟩
        have := List.any_eq_false.mp hb ent hent
        simp only [beq_iff_eq] at this
        exact this (by exact hid)
      · rw [if_neg hg]
        exact ih fo h

/-- Finish times stay weakly sorted and bounded by the tick's elapsed
time: every appended entry uses the elapsed time itself. -/
theorem raceLoop_snd_sorted (d ts D el : ℚ) :
    ∀ (rs : List RunnerState) (fo : List RaceResult),
      (∀ e ∈ fo, e.finish_time ≤ el) →
      (fo.map RaceResult.finish_time).Pairwise (· ≤ ·) →
      ((raceLoop d ts D el rs fo).2.map RaceResult.finish_time).Pairwise (· ≤ ·) ∧
      (∀ e ∈ (raceLoop d ts D el rs fo).2, e.finish_time ≤ el) := by
  intro rs
  induction rs with
  | nil =>
    intro fo hb hp
    rw [raceLoop_nil]
    exact ⟨hp, hb⟩
  | cons r rs ih =>
    intro fo hb hp
    by_cases hf : r.flags.finished
    · rw [raceLoop_cons_finished d ts D el r rs fo hf]
      exact ih fo hb hp
    · rw [raceLoop_cons_unfinished d ts D el r rs fo (by simpa using hf)]
      by_cases hg : ((Runner.update r d ts D).flags.finished &&
          !(fo.any fun x => x.runner_id == (Runner.update r d ts D).id)) = true
      · rw [if_pos hg]
        apply ih
        · intro e he
          rcases List.mem_append.mp he with he | he
          · exact hb e he
          · simp only [List.mem_singleton] at he
            subst he
            exact le_refl el
        · rw [List.map_append]
          rw [List.pairwise_append]
          refine ⟨hp, by simp, ?_⟩
          intro x hx y hy
          simp only [List.map_cons, List.map_nil, List.mem_singleton] at hy
          subst hy
          rcases List.mem_map.mp hx with ⟨ent, hent, rfl⟩
          exact hb ent hent
      · rw [if_neg hg]
        exact ih fo hb hp

/-- During the `Racing` loop, an already finished runner is skipped: its
state is carried over unchanged. -/
theorem raceLoop_skip_finished (d ts D el : ℚ) :
    ∀ (rs : List RunnerState) (fo : List RaceResult) (i : ℕ) (ru : RunnerState),
      rs[i]? = some ru → ru.flags.finished = true →
      (raceLoop d ts D el rs fo).1[i]? = some ru := by
  intro rs
  induction rs with
  | nil => intro fo i ru h; simp at h
  | cons r rs ih =>
    intro fo i ru h hfin
    cases i with
    | zero =>
      obtain rfl : r = ru := by simpa using h
      rw [raceLoop_cons_finished d ts D el r rs fo hfin]
      simp
    | succ i =>
      rw [List.getElem?_cons_succ] at h
      by_cases hf : r.flags.finished
      · rw [raceLoop_cons_finished d ts D el r rs fo hf]
        simpa using ih fo i ru h hfin
      · rw [raceLoop_cons_unfinished d ts D el r rs fo (by simpa using hf)]
        simpa using ih _ i ru h hfin

/-- An unfinished runner gets updated with exactly `Runner.update` on the
tick's arguments. -/
theorem raceLoop_updates_unfinished (d ts D el : ℚ) :
    ∀ (rs : List RunnerState) (fo : List RaceResult) (i : ℕ) (ru : RunnerState),
      rs[i]? = some ru → ru.flags.finished = false →
      (raceLoop d ts D el rs fo).1[i]? = some (Runner.update ru d ts D) := by
  intro rs
  induction rs with
  | nil => intro fo i ru h; simp at h
  | cons r rs ih =>
    intro fo i ru h hfin
    cases i with
    | zero =>
      obtain rfl : r = ru := by simpa using h
      rw [raceLoop_cons_unfinished d ts D el r rs fo hfin]
      simp
    | succ i =>
      rw [List.getElem?_cons_succ] at h
      by_cases hf : r.flags.finished
      · rw [raceLoop_cons_finished d ts D el r rs fo hf]
        simpa using ih fo i ru h hfin
      · rw [raceLoop_cons_unfinished d ts D el r rs fo (by simpa using hf)]
        simpa using ih _ i ru h hfin

/-- Completeness of finish recording: a runner that starts the tick
unfinished and whose update crosses the line ends the tick with its id
present in the finish order. -/
theorem raceLoop_complete (d ts D el : ℚ) :
    ∀ (rs : List RunnerState) (fo : List RaceResult) (i : ℕ) (ru : RunnerState),
      rs[i]? = some ru → ru.flags.finished = false →
      (Runner.update ru d ts D).flags.finished = true →
      ru.id ∈ (raceLoop d ts D el rs fo).2.map RaceResult.runner_id := by
  intro rs
  induction rs with
  | nil => intro fo i ru h; simp at h
  | cons r rs ih =>
    intro fo i ru h h0 h1
    cases i with
    | zero =>
      obtain rfl : r = ru := by simpa using h
      rw [raceLoop_cons_unfinished d ts D el r rs fo h0]
      dsimp only
      by_cases hg : ((Runner.update r d ts D).flags.finished &&
          !(fo.any fun x => x.runner_id == (Runner.update r d ts D).id)) = true
      · rw [if_pos hg]
        have hmem : (⟨(Runner.update r d ts D).id, (Runner.update r d ts D).name,
            el, fo.length + 1⟩ : RaceResult) ∈
            fo ++ [⟨(Runner.update r d ts D).id, (Runner.update r d ts D).name,
                    el, fo.length + 1⟩] := by
          simp
        have hres := raceLoop_mem_of_mem d ts D el rs _ _ hmem
        refine List.mem_map.mpr ⟨_, hres, ?_⟩
        simp [Runner.update_id]
      · rw [if_neg hg]
        have hany : (fo.any fun x => x.runner_id == (Runner.update r d ts D).id) = true := by
          by_contra hc
          have hfalse : (fo.any fun x => x.runner_id == (Runner.update r d ts D).id) = false := by
            revert hc
            cases fo.any fun x => x.runner_id == (Runner.update r d ts D).id <;> simp
          exact hg (by rw [h1, hfalse]; rfl)
        obtain ⟨ent, hent, heq⟩ := List.any_eq_true.mp hany
        have hres := raceLoop_mem_of_mem d ts D el rs _ ent hent
        refine List.mem_map.mpr ⟨ent, hres, ?_⟩
        simpa [Runner.update_id] using heq
    | succ i =>
      rw [List.getElem?_cons_succ] at h
      by_cases hf : r.flags.finished
      · rw [raceLoop_cons_finished d ts D el r rs fo hf]
        exact ih fo i ru h h0 h1
      · rw [raceLoop_cons_unfinished d ts D el r rs fo (by simpa using hf)]
        exact ih _ i ru h h0 h1

/-! ### Target speed positivity -/

/-- With a positive time scale and positive, strictly increasing splits,
the target speed is positive at every distance. -/
theorem get_target_speed_pos (s : SplitTimes) (d ts : ℚ) (hts : 0 < ts)
    (h0 : 0 < s.splits 0)
    (hmono : ∀ i j : Fin 5, i < j → s.splits i < s.splits j) :
    0 < s.get_target_speed d ts := by
  unfold SplitTimes.get_target_speed
  dsimp only
  split
  case isTrue h =>
    have hseg : segFin d = (0 : Fin 5) := Fin.ext h
    rw [hseg]
    have : (0:ℚ) < s.splits 0 - 0 := by linarith
    exact div_pos (div_pos (by norm_num) this) hts
  case isFalse h =>
    have hlt : (⟨(segFin d : ℕ) - 1, by have := (segFin d).isLt; omega⟩ : Fin 5) < segFin d := by
      rw [Fin.lt_def]
      have := (segFin d).isLt
      simp only []
      omega
    have hm := hmono _ _ hlt
    have : (0:ℚ) < s.splits (segFin d) - s.splits ⟨(segFin d : ℕ) - 1, by have := (segFin d).isLt; omega⟩ := by
      linarith
    exact div_pos (div_pos (by norm_num) this) hts

/-! ### `Race.update`: case field equations -/

theorem Race.update_notStarted (r : Race) (d : ℚ) (h : r.status = RaceStatus.NotStarted) :
    r.update d = r := by
  simp [Race.update, h]

theorem Race.update_countdown_fields (r : Race) (d : ℚ) (h : r.status = RaceStatus.Countdown) :
    (r.update d).finish_order = r.finish_order ∧ (r.update d).runners = r.runners ∧
    (r.update d).elapsed_time = r.elapsed_time ∧ (r.update d).config = r.config := by
  simp only [Race.update, h]
  split <;> simp

theorem Race.update_racing_fields (r : Race) (d : ℚ) (h : r.status = RaceStatus.Racing) :
    (r.update d).elapsed_time = r.elapsed_time + d * r.config.time_scale ∧
    (r.update d).runners =
      (raceLoop d r.config.time_scale r.config.distance
        (r.elapsed_time + d * r.config.time_scale) r.runners r.finish_order).1 ∧
    (r.update d).finish_order =
      (raceLoop d r.config.time_scale r.config.distance
        (r.elapsed_time + d * r.config.time_scale) r.runners r.finish_order).2 ∧
    (r.update d).config = r.config := by
  simp [Race.update, h]

theorem Race.update_finished_fields (r : Race) (d : ℚ) (h : r.status = RaceStatus.Finished) :
    (r.update d).status = RaceStatus.Finished ∧
    (r.update d).finish_order = r.finish_order ∧
    (r.update d).elapsed_time = r.elapsed_time ∧
    (r.update d).config = r.config ∧
    (r.update d).runners = r.runners.map
      (fun x => Runner.update x d r.config.time_scale r.config.distance) := by
  simp [Race.update, h]

theorem Race.update_config (r : Race) (d : ℚ) : (r.update d).config = r.config := by
  rcases hs : r.status
  · rw [Race.update_notStarted r d hs]
  · exact (Race.update_countdown_fields r d hs).2.2.2
  · exact (Race.update_racing_fields r d hs).2.2.2
  · exact (Race.update_finished_fields r d hs).2.2.2.1

theorem Race.update_runner_ids (r : Race) (d : ℚ) :
    (r.update d).runners.map RunnerState.id = r.runners.map RunnerState.id := by
  rcases hs : r.status
  · rw [Race.update_notStarted r d hs]
  · rw [(Race.update_countdown_fields r d hs).2.1]
  · rw [(Race.update_racing_fields r d hs).2.1]
    exact raceLoop_fst_ids _ _ _ _ r.runners r.finish_order
  · rw [(Race.update_finished_fields r d hs).2.2.2.2]
    rw [List.map_map]
    simp [Function.comp, Runner.update_id]

theorem Race.update_runners_length (r : Race) (d : ℚ) :
    (r.update d).runners.length = r.runners.length := by
  have h := Race.update_runner_ids r d
  have h1 := congrArg List.length h
  simpa using h1

/-- `Race.update` never moves the status backwards. -/
theorem Race.statusRank_update (r : Race) (d : ℚ) :
    statusRank r.status ≤ statusRank (r.update d).status := by
  obtain ⟨cfg, st, rn, et, cd, fo⟩ := r
  cases st
  · exact le_refl _
  · show statusRank RaceStatus.Countdown ≤ _
    unfold Race.update
    dsimp only
    split <;> simp [statusRank]
  · show statusRank RaceStatus.Racing ≤ _
    unfold Race.update
    dsimp only
    split <;> simp [statusRank]
  · exact le_of_eq (by
      rw [(Race.update_finished_fields _ d rfl).1])

/-- Status characterization of a `Countdown` step: the transition to
`Racing` happens exactly when the countdown minus the raw (unscaled)
delta reaches `≤ 0`, and the countdown is then clamped to 0. -/
theorem Race.update_countdown_char (r : Race) (d : ℚ) (h : r.status = RaceStatus.Countdown) :
    ((r.update d).status = RaceStatus.Racing ↔ r.countdown - d ≤ 0) ∧
    (r.countdown - d ≤ 0 → (r.update d).countdown = 0) ∧
    (¬(r.countdown - d ≤ 0) →
      (r.update d).status = RaceStatus.Countdown ∧
      (r.update d).countdown = r.countdown - d) := by
  simp only [Race.update, h]
  split
  case isTrue hc => simp [hc]
  case isFalse hc => simp [hc]

/-- Status characterization of a `Racing` step: the transition to
`Finished` happens exactly when the finish order reaches roster size. -/
theorem Race.update_racing_char (r : Race) (d : ℚ) (h : r.status = RaceStatus.Racing) :
    ((r.update d).status = RaceStatus.Finished ↔
      (r.update d).finish_order.length = r.runners.length) ∧
    ((r.update d).status = RaceStatus.Finished ∨
      (r.update d).status = RaceStatus.Racing) := by
  have hlen := raceLoop_fst_length d r.config.time_scale r.config.distance
    (r.elapsed_time + d * r.config.time_scale) r.runners r.finish_order
  have hfo := (Race.update_racing_fields r d h).2.2.1
  simp only [Race.update, h] at hfo ⊢
  split
  case isTrue hc => simp_all
  case isFalse hc => simp_all

/-! ### Update-sequence (trace) lemmas -/

theorem applyUpdates_nil (r : Race) : applyUpdates r [] = r := rfl

theorem applyUpdates_cons (r : Race) (d : ℚ) (ds : List ℚ) :
    applyUpdates r (d :: ds) = applyUpdates (r.update d) ds := rfl

theorem applyUpdates_append (r : Race) (ds1 ds2 : List ℚ) :
    applyUpdates r (ds1 ++ ds2) = applyUpdates (applyUpdates r ds1) ds2 := by
  simp [applyUpdates, List.foldl_append]

theorem raceAt_zero (r : Race) (ds : List ℚ) : raceAt r ds 0 = r := rfl

theorem raceAt_succ (r : Race) (ds : List ℚ) (i : ℕ) (h : i < ds.length) :
    raceAt r ds (i + 1) = (raceAt r ds i).update ds[i] := by
  unfold raceAt
  rw [List.take_succ, applyUpdates_append]
  simp [List.getElem?_eq_getElem h, applyUpdates]

theorem raceAt_config (r : Race) (ds : List ℚ) (n : ℕ) :
    (raceAt r ds n).config = r.config := by
  induction n with
  | zero => rfl
  | succ n ih =>
    rcases Nat.lt_or_ge n ds.length with h | h
    · rw [raceAt_succ r ds n h, Race.update_config, ih]
    · have h1 : raceAt r ds (n + 1) = raceAt r ds n := by
        unfold raceAt
        rw [List.take_of_length_le (by omega : ds.length ≤ n + 1), List.take_of_length_le h]
      rw [h1]
      exact ih

/-- The status rank never decreases along a trace of updates. -/
theorem raceAt_rank_mono (r : Race) (ds : List ℚ) (i j : ℕ) (hij : i ≤ j) :
    statusRank (raceAt r ds i).status ≤ statusRank (raceAt r ds j).status := by
  induction j with
  | zero =>
    have : i = 0 := by omega
    subst this
    exact le_refl _
  | succ j ih =>
    rcases Nat.lt_or_ge i (j + 1) with h | h
    · have hj := ih (by omega)
      rcases Nat.lt_or_ge j ds.length with hlen | hlen
      · rw [raceAt_succ r ds j hlen]
        exact le_trans hj (Race.statusRank_update _ _)
      · have : raceAt r ds (j + 1) = raceAt r ds j := by
          unfold raceAt
          rw [List.take_of_length_le (by omega), List.take_of_length_le hlen]
        rw [this]
        exact hj
    · have : i = j + 1 := by omega
      subst this
      exact le_refl _

/-! ### The finish-order invariant (claim C1) -/

theorem finishOrderInv_update (r : Race) (d : ℚ) (hd : 0 ≤ d)
    (hts : 0 ≤ r.config.time_scale) (h : FinishOrderInv r) :
    FinishOrderInv (r.update d) := by
  obtain ⟨h1, h2, h3, h4, h5⟩ := h
  rcases hs : r.status
  · rw [Race.update_notStarted r d hs]
    exact ⟨h1, h2, h3, h4, h5⟩
  · obtain ⟨e1, e2, e3, -⟩ := Race.update_countdown_fields r d hs
    exact ⟨by rw [e1]; exact h1, by rw [e1]; exact h2,
      by rw [e1]; exact h3,
      by rw [e1, e2]; exact h4,
      by rw [e1, e3]; exact h5⟩
  · obtain ⟨e1, e2, e3, -⟩ := Race.update_racing_fields r d hs
    have hel : r.elapsed_time ≤ r.elapsed_time + d * r.config.time_scale := by nlinarith
    have hb : ∀ e ∈ r.finish_order,
        e.finish_time ≤ r.elapsed_time + d * r.config.time_scale := by
      intro e he
      exact le_trans (h5 e he) hel
    have hsort := raceLoop_snd_sorted d r.config.time_scale r.config.distance
      (r.elapsed_time + d * r.config.time_scale) r.runners r.finish_order hb h2
    refine ⟨?_, ?_, ?_, ?_, ?_⟩
    · rw [e3]
      exact raceLoop_snd_nodup _ _ _ _ r.runners r.finish_order h1
    · rw [e3]
      exact hsort.1
    · rw [e3]
      intro k e he
      rcases Nat.lt_or_ge k r.finish_order.length with hk | hk
      · obtain ⟨new, hn, -⟩ := raceLoop_snd_append d r.config.time_scale r.config.distance
          (r.elapsed_time + d * r.config.time_scale) r.runners r.finish_order
        rw [hn, List.getElem?_append, if_pos hk] at he
        exact h3 k e he
      · exact raceLoop_snd_position _ _ _ _ r.runners r.finish_order k e hk he
    · rw [e3, e2]
      intro e he
      rw [raceLoop_fst_ids]
      obtain ⟨new, hn, hp⟩ := raceLoop_snd_append d r.config.time_scale r.config.distance
        (r.elapsed_time + d * r.config.time_scale) r.runners r.finish_order
      rw [hn] at he
      rcases List.mem_append.mp he with he | he
      · exact h4 e he
      · exact (hp e he).2
    · rw [e3, e1]
      exact hsort.2
  · obtain ⟨-, e1, e2, -, e3⟩ := Race.update_finished_fields r d hs
    refine ⟨by rw [e1]; exact h1, by rw [e1]; exact h2, by rw [e1]; exact h3, ?_,
      by rw [e1, e2]; exact h5⟩
    rw [e1, e3]
    intro e he
    rw [List.map_map]
    simpa [Function.comp, Runner.update_id] using h4 e he

theorem finishOrderInv_applyUpdates (r : Race) (ds : List ℚ)
    (hts : 0 ≤ r.config.time_scale) (hds : ∀ d ∈ ds, 0 ≤ d) (h : FinishOrderInv r) :
    FinishOrderInv (applyUpdates r ds) := by
  induction ds generalizing r with
  | nil => exact h
  | cons d ds ih =>
    rw [applyUpdates_cons]
    refine ih (r.update d) ?_ (fun x hx => hds x (List.mem_cons_of_mem d hx)) ?_
    · rw [Race.update_config]
      exact hts
    · exact finishOrderInv_update r d (hds d (List.mem_cons_self d ds)) hts h

/-- A race whose finish order satisfies the invariant has at most
roster-many finish entries. -/
theorem finishOrderInv_length_le (r : Race) (h : FinishOrderInv r) :
    r.finish_order.length ≤ r.runners.length := by
  obtain ⟨h1, -, -, h4, -⟩ := h
  have hlen : r.finish_order.length = (r.finish_order.map RaceResult.runner_id).length := by
    simp
  rw [hlen, ← List.toFinset_card_of_nodup h1]
  have hsub : (r.finish_order.map RaceResult.runner_id).toFinset ⊆
      (r.runners.map RunnerState.id).toFinset := by
    intro x hx
    rw [List.mem_toFinset] at hx ⊢
    rcases List.mem_map.mp hx with ⟨e, he, rfl⟩
    exact h4 e he
  calc (r.finish_order.map RaceResult.runner_id).toFinset.card
      ≤ (r.runners.map RunnerState.id).toFinset.card := Finset.card_le_card hsub
    _ ≤ (r.runners.map RunnerState.id).length := List.toFinset_card_le _
    _ = r.runners.length := by simp

/-! ### Claim theorems: runner-level claims -/

/-- Claim C10: the segment index computed by `get_target_speed` always
lies in `[0, 4]` (negative distances, such as the back starting rows,
saturate to 0), so both split-array accesses are in bounds; `segFin` is
that index packaged with its in-bounds proof. -/
theorem C10_segment_index_in_bounds (d : ℚ) :
    segIdx d ≤ 4 ∧ (d ≤ 0 → segIdx d = 0) ∧ ((segFin d) : ℕ) = segIdx d := by
  refine ⟨?_, ?_, rfl⟩
  · unfold segIdx
    have h := min_le_right ⌊d / 1000⌋ 4
    omega
  · intro hd
    unfold segIdx
    have hq : d / 1000 ≤ 0 := by linarith
    have hf : ⌊d / 1000⌋ ≤ 0 := Int.floor_nonpos hq
    have h := min_le_left ⌊d / 1000⌋ 4
    omega

/-- Witness for C10 at the concrete back-row distance `-9`. -/
theorem C10_witness :
    segIdx (-9) ≤ 4 ∧ ((-9 : ℚ) ≤ 0 → segIdx (-9) = 0) ∧ ((segFin (-9)) : ℕ) = segIdx (-9) :=
  C10_segment_index_in_bounds (-9)

/-- Claim C2: for finish time `F > 0` and any draw of the per-checkpoint
jitters, the five cumulative checkpoints are strictly increasing, the
fifth equals `F` exactly, and `final_time = F`. -/
theorem C2_split_curve (F : ℚ) (rnd : Fin 4 → ℚ) (hF : 0 < F)
    (hr : ∀ i, 0 ≤ rnd i ∧ rnd i ≤ 1) :
    (∀ i j : Fin 5, i < j →
      (SplitTimes.from_finish_time F rnd).splits i <
        (SplitTimes.from_finish_time F rnd).splits j) ∧
    (SplitTimes.from_finish_time F rnd).splits 4 = F ∧
    (SplitTimes.from_finish_time F rnd).final_time = F := by
  refine ⟨?_, rfl, rfl⟩
  intro i j hij
  fin_cases i <;> fin_cases j <;>
    first
      | exact absurd hij (by decide)
      | (simp only [SplitTimes.from_finish_time]
         simp
         nlinarith [hF, (hr 0).1, (hr 0).2, (hr 1).1, (hr 1).2, (hr 2).1, (hr 2).2,
           (hr 3).1, (hr 3).2])

/-- Witness for C2 at `F = 5`, all jitter draws `1/2`. -/
theorem C2_witness :
    (0:ℚ) < 5 ∧ (∀ i : Fin 4, 0 ≤ (fun _ : Fin 4 => (1/2 : ℚ)) i ∧ (fun _ : Fin 4 => (1/2 : ℚ)) i ≤ 1) ∧
    ((∀ i j : Fin 5, i < j →
      (SplitTimes.from_finish_time 5 (fun _ => 1/2)).splits i <
        (SplitTimes.from_finish_time 5 (fun _ => 1/2)).splits j) ∧
    (SplitTimes.from_finish_time 5 (fun _ => 1/2)).splits 4 = 5 ∧
    (SplitTimes.from_finish_time 5 (fun _ => 1/2)).final_time = 5) :=
  ⟨by norm_num, fun _ => by norm_num,
    C2_split_curve 5 (fun _ => 1/2) (by norm_num) (fun _ => by norm_num)⟩

/-- Claim C5: in one `Runner::update` with `delta ≥ 0`, current speed
changes by at most `ACCELERATION_RATE * delta` in absolute value and
moves monotonically toward the (recomputed) target speed, never
overshooting it. -/
theorem C5_smooth_acceleration (st : RunnerState) (delta time_scale race_distance : ℚ)
    (hd : 0 ≤ delta) :
    |(Runner.update st delta time_scale race_distance).current_speed - st.current_speed| ≤
      Runner.ACCELERATION_RATE * delta ∧
    (st.current_speed < (Runner.update st delta time_scale race_distance).target_speed →
      st.current_speed ≤ (Runner.update st delta time_scale race_distance).current_speed ∧
      (Runner.update st delta time_scale race_distance).current_speed ≤
        (Runner.update st delta time_scale race_distance).target_speed) ∧
    ((Runner.update st delta time_scale race_distance).target_speed < st.current_speed →
      (Runner.update st delta time_scale race_distance).target_speed ≤
        (Runner.update st delta time_scale race_distance).current_speed ∧
      (Runner.update st delta time_scale race_distance).current_speed ≤ st.current_speed) ∧
    ((Runner.update st delta time_scale race_distance).target_speed = st.current_speed →
      (Runner.update st delta time_scale race_distance).current_speed = st.current_speed) := by
  have ha : (0:ℚ) ≤ Runner.ACCELERATION_RATE * delta := by
    unfold Runner.ACCELERATION_RATE; linarith
  rw [Runner.update_speed st delta time_scale race_distance]
  set T := (Runner.update st delta time_scale race_distance).target_speed with hT
  set a := Runner.ACCELERATION_RATE * delta with haa
  rcases lt_trichotomy st.current_speed T with h | h | h
  · rw [if_pos h]
    have h1 := min_le_left (st.current_speed + a) T
    have h2 := min_le_right (st.current_speed + a) T
    have h3 : st.current_speed ≤ min (st.current_speed + a) T :=
      le_min (by linarith) (le_of_lt h)
    refine ⟨abs_le.mpr ⟨by linarith, by linarith⟩, fun _ => ⟨h3, h2⟩,
      fun hc => absurd hc (not_lt.mpr (le_of_lt h)), fun hc => absurd hc.symm (ne_of_lt h)⟩
  · rw [if_neg (by rw [h]; exact lt_irrefl _), if_neg (by rw [h]; exact lt_irrefl _)]
    refine ⟨by simpa using ha, fun hc => absurd hc (by rw [h]; exact lt_irrefl _),
      fun hc => absurd hc (by rw [h]; exact lt_irrefl _), fun _ => rfl⟩
  · rw [if_neg (not_lt.mpr (le_of_lt h)), if_pos h]
    have h1 := le_max_left (st.current_speed - a) T
    have h2 := le_max_right (st.current_speed - a) T
    have h3 : max (st.current_speed - a) T ≤ st.current_speed :=
      max_le (by linarith) (le_of_lt h)
    refine ⟨abs_le.mpr ⟨by linarith, by linarith⟩,
      fun hc => absurd hc (not_lt.mpr (le_of_lt h)), fun _ => ⟨h2, h3⟩,
      fun hc => absurd hc (ne_of_lt h)⟩

/-- Witness for C5 at a concrete runner state. -/
theorem C5_witness :
    (0:ℚ) ≤ 1 ∧
    (|(Runner.update (RunnerState.new 0 "w" 600 ⟨0, 0, fun _ => 1/2⟩) 1 10 5000).current_speed -
        (RunnerState.new 0 "w" 600 ⟨0, 0, fun _ => 1/2⟩).current_speed| ≤
      Runner.ACCELERATION_RATE * 1 ∧
    ((RunnerState.new 0 "w" 600 ⟨0, 0, fun _ => 1/2⟩).current_speed <
        (Runner.update (RunnerState.new 0 "w" 600 ⟨0, 0, fun _ => 1/2⟩) 1 10 5000).target_speed →
      (RunnerState.new 0 "w" 600 ⟨0, 0, fun _ => 1/2⟩).current_speed ≤
        (Runner.update (RunnerState.new 0 "w" 600 ⟨0, 0, fun _ => 1/2⟩) 1 10 5000).current_speed ∧
      (Runner.update (RunnerState.new 0 "w" 600 ⟨0, 0, fun _ => 1/2⟩) 1 10 5000).current_speed ≤
        (Runner.update (RunnerState.new 0 "w" 600 ⟨0, 0, fun _ => 1/2⟩) 1 10 5000).target_speed) ∧
    ((Runner.update (RunnerState.new 0 "w" 600 ⟨0, 0, fun _ => 1/2⟩) 1 10 5000).target_speed <
        (RunnerState.new 0 "w" 600 ⟨0, 0, fun _ => 1/2⟩).current_speed →
      (Runner.update (RunnerState.new 0 "w" 600 ⟨0, 0, fun _ => 1/2⟩) 1 10 5000).target_speed ≤
        (Runner.update (RunnerState.new 0 "w" 600 ⟨0, 0, fun _ => 1/2⟩) 1 10 5000).current_speed ∧
      (Runner.update (RunnerState.new 0 "w" 600 ⟨0, 0, fun _ => 1/2⟩) 1 10 5000).current_speed ≤
        (RunnerState.new 0 "w" 600 ⟨0, 0, fun _ => 1/2⟩).current_speed) ∧
    ((Runner.update (RunnerState.new 0 "w" 600 ⟨0, 0, fun _ => 1/2⟩) 1 10 5000).target_speed =
        (RunnerState.new 0 "w" 600 ⟨0, 0, fun _ => 1/2⟩).current_speed →
      (Runner.update (RunnerState.new 0 "w" 600 ⟨0, 0, fun _ => 1/2⟩) 1 10 5000).current_speed =
        (RunnerState.new 0 "w" 600 ⟨0, 0, fun _ => 1/2⟩).current_speed)) :=
  ⟨by norm_num, C5_smooth_acceleration _ 1 10 5000 (by norm_num)⟩

/-- Claim C9: with non-negative current speed, positive strictly
increasing splits, `delta ≥ 0` and `time_scale > 0`, one `Runner::update`
keeps the current speed non-negative and never decreases the distance. -/
theorem C9_never_moves_backwards (st : RunnerState) (delta time_scale race_distance : ℚ)
    (hcs : 0 ≤ st.current_speed) (hd : 0 ≤ delta) (hts : 0 < time_scale)
    (h0 : 0 < st.split_times.splits 0)
    (hmono : ∀ i j : Fin 5, i < j → st.split_times.splits i < st.split_times.splits j) :
    0 ≤ (Runner.update st delta time_scale race_distance).current_speed ∧
    st.distance ≤ (Runner.update st delta time_scale race_distance).distance := by
  have hT : 0 < (Runner.update st delta time_scale race_distance).target_speed := by
    rw [Runner.update_target]
    split
    · have := get_target_speed_pos st.split_times (race_distance - 1) time_scale hts h0 hmono
      unfold Runner.COOLDOWN_FACTOR
      nlinarith
    · exact get_target_speed_pos st.split_times st.distance time_scale hts h0 hmono
  have ha : (0:ℚ) ≤ Runner.ACCELERATION_RATE * delta := by
    unfold Runner.ACCELERATION_RATE; linarith
  have hspeed : 0 ≤ (Runner.update st delta time_scale race_distance).current_speed := by
    rw [Runner.update_speed]
    split
    · exact le_min (by linarith) (le_of_lt hT)
    · split
      · exact le_trans (le_of_lt hT) (le_max_right _ _)
      · exact hcs
  refine ⟨hspeed, ?_⟩
  rw [Runner.update_distance]
  nlinarith

/-- Claim C1 (amended): for every race starting with an empty finish
order, non-negative time scale, and any sequence of non-negative update
deltas, the finish order has pairwise distinct runner ids, weakly
increasing (not strictly increasing) finish times in append order,
position equal to the 1-based append index, and length never exceeding
the roster size. -/
theorem C1_finish_order_invariant (r : Race) (ds : List ℚ)
    (h0 : r.finish_order = []) (hts : 0 ≤ r.config.time_scale)
    (hds : ∀ d ∈ ds, 0 ≤ d) :
    FinishOrderInv (applyUpdates r ds) ∧
    (applyUpdates r ds).finish_order.length ≤ (applyUpdates r ds).runners.length := by
  have hinv : FinishOrderInv r := by
    refine ⟨by simp [h0], by simp [h0], ?_, ?_, ?_⟩ <;> simp [h0]
  have h2 := finishOrderInv_applyUpdates r ds hts hds hinv
  exact ⟨h2, finishOrderInv_length_le _ h2⟩

/-- Witness for C1 on a default-config race driven one tick. -/
theorem C1_witness :
    (Race.new RaceConfig.default).finish_order = [] ∧
    0 ≤ (Race.new RaceConfig.default).config.time_scale ∧
    (∀ d ∈ [(1 : ℚ)], 0 ≤ d) ∧
    (FinishOrderInv (applyUpdates (Race.new RaceConfig.default) [1]) ∧
      (applyUpdates (Race.new RaceConfig.default) [1]).finish_order.length ≤
        (applyUpdates (Race.new RaceConfig.default) [1]).runners.length) :=
  ⟨rfl, by norm_num [Race.new, RaceConfig.default], by norm_num,
    C1_finish_order_invariant (Race.new RaceConfig.default) [1] rfl
      (by norm_num [Race.new, RaceConfig.default]) (by norm_num)⟩

/-- Claim C1 as stated is false on one point: runners finishing in the
same tick are recorded with equal finish times, so the finish-time
sequence is not strictly increasing.  The race below is built with the
repository's own constructors and driven only by `Race.update` with
non-negative deltas; both runners cross during the same tick and the
resulting finish times are `[4, 4]`. -/
theorem C1_counterexample :
    cexRace0.finish_order = [] ∧ cexRace0.config.time_scale = 1 ∧
    cexRace.finish_order.map RaceResult.finish_time = [4, 4] ∧
    ¬ (cexRace.finish_order.map RaceResult.finish_time).Pairwise (· < ·) := by
  refine ⟨rfl, rfl, ?_, ?_⟩
  · with_unfolding_all decide
  · with_unfolding_all decide

/-- Claim C6: during a `Racing` tick, elapsed time advances by exactly
`delta * time_scale`; every entry appended this tick carries the already
advanced elapsed time as finish time and position equal to one plus the
number of previously appended finishers; and every runner newly crossing
the line this tick gets recorded. -/
theorem C6_racing_tick_appends (r : Race) (d : ℚ) (h : r.status = RaceStatus.Racing) :
    (r.update d).elapsed_time = r.elapsed_time + d * r.config.time_scale ∧
    (∃ new, (r.update d).finish_order = r.finish_order ++ new ∧
      ∀ e ∈ new, e.finish_time = r.elapsed_time + d * r.config.time_scale) ∧
    (∀ (k : ℕ) (e : RaceResult), r.finish_order.length ≤ k →
      (r.update d).finish_order[k]? = some e → e.position = k + 1) ∧
    (∀ (i : ℕ) (ru : RunnerState), r.runners[i]? = some ru →
      ru.flags.finished = false →
      (Runner.update ru d r.config.time_scale r.config.distance).flags.finished = true →
      ru.id ∈ (r.update d).finish_order.map RaceResult.runner_id) := by
  obtain ⟨e1, e2, e3, -⟩ := Race.update_racing_fields r d h
  refine ⟨e1, ?_, ?_, ?_⟩
  · obtain ⟨new, hn, hp⟩ := raceLoop_snd_append d r.config.time_scale r.config.distance
      (r.elapsed_time + d * r.config.time_scale) r.runners r.finish_order
    exact ⟨new, by rw [e3]; exact hn, fun e he => (hp e he).1⟩
  · intro k e hk he
    rw [e3] at he
    exact raceLoop_snd_position _ _ _ _ r.runners r.finish_order k e hk he
  · intro i ru hru hru0 hru1
    rw [e3]
    exact raceLoop_complete _ _ _ _ r.runners r.finish_order i ru hru hru0 hru1

/-- Witness for C6 on a concrete `Racing`-status race. -/
theorem C6_witness :
    tinyRacing.status = RaceStatus.Racing ∧
    ((tinyRacing.update 1).elapsed_time =
        tinyRacing.elapsed_time + 1 * tinyRacing.config.time_scale ∧
    (∃ new, (tinyRacing.update 1).finish_order = tinyRacing.finish_order ++ new ∧
      ∀ e ∈ new, e.finish_time =
        tinyRacing.elapsed_time + 1 * tinyRacing.config.time_scale) ∧
    (∀ (k : ℕ) (e : RaceResult), tinyRacing.finish_order.length ≤ k →
      (tinyRacing.update 1).finish_order[k]? = some e → e.position = k + 1) ∧
    (∀ (i : ℕ) (ru : RunnerState), tinyRacing.runners[i]? = some ru →
      ru.flags.finished = false →
      (Runner.update ru 1 tinyRacing.config.time_scale
          tinyRacing.config.distance).flags.finished = true →
      ru.id ∈ (tinyRacing.update 1).finish_order.map RaceResult.runner_id)) :=
  ⟨rfl, C6_racing_tick_appends tinyRacing 1 rfl⟩

/-- Witness for C9 at a concrete runner state. -/
theorem C9_witness :
    0 ≤ (Runner.update (RunnerState.new 0 "w" 600 ⟨0, 0, fun _ => 1/2⟩) 1 10 5000).current_speed ∧
    (RunnerState.new 0 "w" 600 ⟨0, 0, fun _ => 1/2⟩).distance ≤
      (Runner.update (RunnerState.new 0 "w" 600 ⟨0, 0, fun _ => 1/2⟩) 1 10 5000).distance :=
  C9_never_moves_backwards _ 1 10 5000 (le_refl 0) (by norm_num) (by norm_num)
    (by with_unfolding_all decide) (by with_unfolding_all decide)

/-- Claim C3 (amended): a runner whose finished flag is set keeps being
updated — with target speed `get_target_speed(race_distance - 1, ts) *
COOLDOWN_FACTOR` — only on ticks where the race status is `Finished`;
on ticks where the status is still `Racing`, finished runners are
skipped entirely and their state is unchanged. -/
theorem C3_cooldown_only_in_finished (r : Race) (d : ℚ) (i : ℕ) (ru : RunnerState)
    (hru : r.runners[i]? = some ru) :
    (r.status = RaceStatus.Finished →
      (r.update d).runners[i]? =
        some (Runner.update ru d r.config.time_scale r.config.distance) ∧
      (ru.flags.finished = true →
        (Runner.update ru d r.config.time_scale r.config.distance).target_speed =
          ru.split_times.get_target_speed (r.config.distance - 1) r.config.time_scale *
            Runner.COOLDOWN_FACTOR)) ∧
    (r.status = RaceStatus.Racing → ru.flags.finished = true →
      (r.update d).runners[i]? = some ru) := by
  constructor
  · intro hs
    obtain ⟨-, -, -, -, e⟩ := Race.update_finished_fields r d hs
    constructor
    · rw [e, List.getElem?_map, hru]
      rfl
    · intro hfin
      rw [Runner.update_target, hfin]
      simp
  · intro hs hfin
    obtain ⟨-, e, -, -⟩ := Race.update_racing_fields r d hs
    rw [e]
    exact raceLoop_skip_finished _ _ _ _ r.runners r.finish_order i ru hru hfin

/-- Witness for C3 (amended) on the concrete race with a finished
runner. -/
theorem C3_witness :
    cexRacing3.runners[0]? = some cexFinishedRunner ∧
    ((cexRacing3.status = RaceStatus.Finished →
      (cexRacing3.update 1).runners[0]? =
        some (Runner.update cexFinishedRunner 1 cexRacing3.config.time_scale
          cexRacing3.config.distance) ∧
      (cexFinishedRunner.flags.finished = true →
        (Runner.update cexFinishedRunner 1 cexRacing3.config.time_scale
            cexRacing3.config.distance).target_speed =
          cexFinishedRunner.split_times.get_target_speed
              (cexRacing3.config.distance - 1) cexRacing3.config.time_scale *
            Runner.COOLDOWN_FACTOR)) ∧
    (cexRacing3.status = RaceStatus.Racing → cexFinishedRunner.flags.finished = true →
      (cexRacing3.update 1).runners[0]? = some cexFinishedRunner)) :=
  ⟨rfl, C3_cooldown_only_in_finished cexRacing3 1 0 cexFinishedRunner rfl⟩

/-- Claim C3 as stated is false: during a `Racing`-status tick the
finished runner 0 is not updated at all — its target speed stays at its
stale value 100 instead of being set to the cooldown value (which here
would be 500). -/
theorem C3_counterexample :
    cexRacing3.status = RaceStatus.Racing ∧
    cexFinishedRunner.flags.finished = true ∧
    (cexRacing3.update 1).runners[0]? = some cexFinishedRunner ∧
    cexFinishedRunner.target_speed = 100 ∧
    cexFinishedRunner.split_times.get_target_speed (cexRacing3.config.distance - 1)
        cexRacing3.config.time_scale * Runner.COOLDOWN_FACTOR = 500 ∧
    (100 : ℚ) ≠ 500 := by
  refine ⟨rfl, rfl, ?_, rfl, ?_, by norm_num⟩
  · obtain ⟨-, e, -, -⟩ := Race.update_racing_fields cexRacing3 1 rfl
    rw [e]
    exact raceLoop_skip_finished _ _ _ _ cexRacing3.runners cexRacing3.finish_order 0
      cexFinishedRunner rfl rfl
  · with_unfolding_all decide

/-- Claim C4: along any trace of updates with non-negative deltas, a
`Countdown` step transitions to `Racing` exactly when the countdown
decremented by the raw (unscaled) delta reaches `≤ 0` (clamping the
countdown to 0, and otherwise just storing the decremented countdown); a
`Racing` step transitions to `Finished` exactly when the finish order
reaches roster size; a `Finished` race stays `Finished`; and each of the
two transitions can occur at most once along the trace. -/
theorem C4_status_machine (r : Race) (ds : List ℚ) (hds : ∀ d ∈ ds, 0 ≤ d) :
    (∀ (i : ℕ) (hi : i < ds.length),
      ((raceAt r ds i).status = RaceStatus.Countdown →
        (((raceAt r ds (i + 1)).status = RaceStatus.Racing ↔
            (raceAt r ds i).countdown - ds[i] ≤ 0) ∧
         ((raceAt r ds i).countdown - ds[i] ≤ 0 →
            (raceAt r ds (i + 1)).countdown = 0) ∧
         (¬((raceAt r ds i).countdown - ds[i] ≤ 0) →
            (raceAt r ds (i + 1)).status = RaceStatus.Countdown ∧
            (raceAt r ds (i + 1)).countdown = (raceAt r ds i).countdown - ds[i]))) ∧
      ((raceAt r ds i).status = RaceStatus.Racing →
        ((raceAt r ds (i + 1)).status = RaceStatus.Finished ↔
          (raceAt r ds (i + 1)).finish_order.length = (raceAt r ds i).runners.length)) ∧
      ((raceAt r ds i).status = RaceStatus.Finished →
        (raceAt r ds (i + 1)).status = RaceStatus.Finished)) ∧
    (∀ i j : ℕ, i < j →
      ¬((raceAt r ds i).status = RaceStatus.Countdown ∧
        (raceAt r ds (i + 1)).status = RaceStatus.Racing ∧
        (raceAt r ds j).status = RaceStatus.Countdown ∧
        (raceAt r ds (j + 1)).status = RaceStatus.Racing)) ∧
    (∀ i j : ℕ, i < j →
      ¬((raceAt r ds i).status = RaceStatus.Racing ∧
        (raceAt r ds (i + 1)).status = RaceStatus.Finished ∧
        (raceAt r ds j).status = RaceStatus.Racing ∧
        (raceAt r ds (j + 1)).status = RaceStatus.Finished)) := by
  refine ⟨?_, ?_, ?_⟩
  · intro i hi
    rw [raceAt_succ r ds i hi]
    refine ⟨?_, ?_, ?_⟩
    · intro hc
      obtain ⟨c1, c2, c3⟩ := Race.update_countdown_char (raceAt r ds i) (ds[i]) hc
      exact ⟨c1, c2, c3⟩
    · intro hc
      exact (Race.update_racing_char (raceAt r ds i) (ds[i]) hc).1
    · intro hc
      exact (Race.update_finished_fields (raceAt r ds i) (ds[i]) hc).1
  · intro i j hij hcontra
    obtain ⟨-, h2, h3, -⟩ := hcontra
    have hm := raceAt_rank_mono r ds (i + 1) j (by omega)
    rw [h2, h3] at hm
    simp [statusRank] at hm
  · intro i j hij hcontra
    obtain ⟨-, h2, h3, -⟩ := hcontra
    have hm := raceAt_rank_mono r ds (i + 1) j (by omega)
    rw [h2, h3] at hm
    simp [statusRank] at hm

/-- Witness for C4 on a countdown race driven one tick. -/
theorem C4_witness :
    (∀ d ∈ [(3 : ℚ)], 0 ≤ d) ∧
    ((∀ (i : ℕ) (hi : i < [(3 : ℚ)].length),
      ((raceAt cexRace0 [3] i).status = RaceStatus.Countdown →
        (((raceAt cexRace0 [3] (i + 1)).status = RaceStatus.Racing ↔
            (raceAt cexRace0 [3] i).countdown - [(3 : ℚ)][i] ≤ 0) ∧
         ((raceAt cexRace0 [3] i).countdown - [(3 : ℚ)][i] ≤ 0 →
            (raceAt cexRace0 [3] (i + 1)).countdown = 0) ∧
         (¬((raceAt cexRace0 [3] i).countdown - [(3 : ℚ)][i] ≤ 0) →
            (raceAt cexRace0 [3] (i + 1)).status = RaceStatus.Countdown ∧
            (raceAt cexRace0 [3] (i + 1)).countdown =
              (raceAt cexRace0 [3] i).countdown - [(3 : ℚ)][i]))) ∧
      ((raceAt cexRace0 [3] i).status = RaceStatus.Racing →
        ((raceAt cexRace0 [3] (i + 1)).status = RaceStatus.Finished ↔
          (raceAt cexRace0 [3] (i + 1)).finish_order.length =
            (raceAt cexRace0 [3] i).runners.length)) ∧
      ((raceAt cexRace0 [3] i).status = RaceStatus.Finished →
        (raceAt cexRace0 [3] (i + 1)).status = RaceStatus.Finished)) ∧
    (∀ i j : ℕ, i < j →
      ¬((raceAt cexRace0 [3] i).status = RaceStatus.Countdown ∧
        (raceAt cexRace0 [3] (i + 1)).status = RaceStatus.Racing ∧
        (raceAt cexRace0 [3] j).status = RaceStatus.Countdown ∧
        (raceAt cexRace0 [3] (j + 1)).status = RaceStatus.Racing)) ∧
    (∀ i j : ℕ, i < j →
      ¬((raceAt cexRace0 [3] i).status = RaceStatus.Racing ∧
        (raceAt cexRace0 [3] (i + 1)).status = RaceStatus.Finished ∧
        (raceAt cexRace0 [3] j).status = RaceStatus.Racing ∧
        (raceAt cexRace0 [3] (j + 1)).status = RaceStatus.Finished))) :=
  ⟨by norm_num, C4_status_machine cexRace0 [3] (by norm_num)⟩

/-- Claim C7: when the server is not running, `tick` returns exactly the
`get_snapshot` snapshot and leaves the whole server state unchanged. -/
theorem C7_paused_tick_is_pure (s : GameServer) (now cost : ℚ) (h : s.running = false) :
    s.tick now cost = (s, s.get_snapshot) := by
  unfold GameServer.tick GameServer.get_snapshot
  rw [h]
  simp

/-- Witness for C7 on a freshly created (not running) server. -/
theorem C7_witness :
    (GameServer.new 0).running = false ∧
    (GameServer.new 0).tick 5 1 = (GameServer.new 0, (GameServer.new 0).get_snapshot) :=
  ⟨rfl, C7_paused_tick_is_pure (GameServer.new 0) 5 1 rfl⟩

/-- A running tick on a race whose update does not end `Finished`:
`last_tick` advances to `now`, the race is replaced by its update, and
the state and running flag are untouched. -/
theorem GameServer.tick_running (s : GameServer) (now cost : ℚ) (rc : Race)
    (hr : s.race = some rc) (hrun : s.running = true)
    (hnf : (rc.update (now - s.last_tick)).status ≠ RaceStatus.Finished) :
    (s.tick now cost).1.last_tick = now ∧
    (s.tick now cost).1.race = some (rc.update (now - s.last_tick)) ∧
    (s.tick now cost).1.running = s.running ∧
    (s.tick now cost).1.state = s.state := by
  unfold GameServer.tick
  rw [hrun]
  simp only [if_pos rfl]
  rw [show ({ s with last_tick := now } : GameServer).race = s.race from rfl, hr]
  dsimp only
  rcases hst : (rc.update (now - s.last_tick)).status <;>
    simp only [hst] <;>
    first
      | exact absurd hst hnf
      | exact ⟨rfl, rfl, rfl, rfl⟩

/-- Claim C8 (amended): `init_race` sets the coarse state to `Ready`,
replaces the race with a fresh `NotStarted` one, and leaves the running
flag unchanged.  If the server was still running, a later `tick` does run
the simulation step (it advances `last_tick` rather than returning
early), but the fresh race itself is left unchanged because its status is
`NotStarted`, a no-op for `Race::update`; the race does not actually
advance until `start_race` arms the countdown. -/
theorem C8_init_race_keeps_running (s : GameServer) (cfg : RaceConfig)
    (fr : ℕ → ℚ) (rr : ℕ → RunnerRand) (lr ar : ℕ → ℚ) (now cost : ℚ) :
    (s.init_race cfg fr rr lr ar).state = GameState.Ready ∧
    (s.init_race cfg fr rr lr ar).running = s.running ∧
    (s.init_race cfg fr rr lr ar).race.map Race.status = some RaceStatus.NotStarted ∧
    (s.running = true →
      ((s.init_race cfg fr rr lr ar).tick now cost).1.last_tick = now ∧
      ((s.init_race cfg fr rr lr ar).tick now cost).1.race =
        (s.init_race cfg fr rr lr ar).race) := by
  refine ⟨rfl, rfl, rfl, ?_⟩
  intro hrun
  have hnop : (((Race.new cfg).generate_runners fr rr).setup_starting_positions lr
      ar).update (now - (s.init_race cfg fr rr lr ar).last_tick) =
      ((Race.new cfg).generate_runners fr rr).setup_starting_positions lr ar :=
    Race.update_notStarted _ _ rfl
  have h := GameServer.tick_running (s.init_race cfg fr rr lr ar) now cost
    (((Race.new cfg).generate_runners fr rr).setup_starting_positions lr ar)
    rfl (by rw [show (s.init_race cfg fr rr lr ar).running = s.running from rfl, hrun])
    (by rw [hnop]; exact fun hh => by cases hh)
  refine ⟨h.1, ?_⟩
  rw [h.2.1, hnop]
  rfl

/-- Witness for C8 (amended) on the concrete running server. -/
theorem C8_witness :
    cexServer.running = true ∧
    (cexServerInit.state = GameState.Ready ∧
     cexServerInit.running = cexServer.running ∧
     cexServerInit.race.map Race.status = some RaceStatus.NotStarted ∧
     (cexServer.running = true →
       (cexServerInit.tick 5 1).1.last_tick = 5 ∧
       (cexServerInit.tick 5 1).1.race = cexServerInit.race)) :=
  ⟨rfl, C8_init_race_keeps_running cexServer cexConfig cexDrawsFt cexDrawsRunner
    (fun _ => 0) (fun _ => 0) 5 1⟩

/-- Claim C8's consequence ("subsequent tick() calls advance the freshly
created race") is false at this concrete input: the server keeps running
and `tick` does execute its running branch, but the race after the tick
is exactly the race `init_race` created — `Race::update` is a no-op on a
`NotStarted` race, so nothing advances. -/
theorem C8_counterexample :
    cexServer.running = true ∧
    cexServerInit.running = true ∧
    cexServerInit.state = GameState.Ready ∧
    (cexServerInit.tick 5 1).1.last_tick = 5 ∧
    (cexServerInit.tick 5 1).1.race = cexServerInit.race := by
  have hnop : (((Race.new cexConfig).generate_runners cexDrawsFt
      cexDrawsRunner).setup_starting_positions (fun _ => 0)
      (fun _ => 0)).update (5 - cexServerInit.last_tick) =
      ((Race.new cexConfig).generate_runners cexDrawsFt
        cexDrawsRunner).setup_starting_positions (fun _ => 0) (fun _ => 0) :=
    Race.update_notStarted _ _ rfl
  have h := GameServer.tick_running cexServerInit 5 1
    (((Race.new cexConfig).generate_runners cexDrawsFt
      cexDrawsRunner).setup_starting_positions (fun _ => 0) (fun _ => 0))
    rfl rfl (by rw [hnop]; exact fun hh => by cases hh)
  refine ⟨rfl, rfl, rfl, h.1, ?_⟩
  rw [h.2.1, hnop]
  rfl

end TrackRunner
